import Mathlib

/-!
Verification development for the hr-query-chatbot retrieval-and-ranking core.

The Python sources under `backend/` are shallowly embedded here:
pure functions become Lean functions over `List Char` / `String`, `ℕ` and `ℚ`
(Python floats are idealised as exact rationals), dict-backed state becomes
explicit records, and fallible steps return `Option`.  Unicode-specific
behaviour of Python's `str.lower` and `\w` is modelled at ASCII level, which
covers every string these components are exercised with.
-/

namespace HrBot

/-- Whitespace characters recognised by Python's `str.split`, `str.strip` and
the regex class `\s` (ASCII range). -/
def isWsChar (c : Char) : Bool :=
  c = ' ' || c = '\t' || c = '\n' || c = '\r' || c = '\x0b' || c = '\x0c'

/-- ASCII lowercasing, modelling `str.lower` on the ASCII inputs used here. -/
def asciiLower (c : Char) : Char :=
  if 'A' ≤ c ∧ c ≤ 'Z' then Char.ofNat (c.toNat + 32) else c

/-- Membership in the regex class `\w` (ASCII): letters, digits, underscore. -/
def isWordChar (c : Char) : Bool :=
  c.isAlpha || c.isDigit || c = '_'

/-- Python substring test `pat in s` on character lists. -/
def isSubListOf (pat : List Char) : List Char → Bool
  | [] => pat.isEmpty
  | c :: rest => pat.isPrefixOf (c :: rest) || isSubListOf pat rest

/-- Fuel-based worker for `replaceAll` (structural recursion on the fuel so
the function reduces definitionally; one unit of fuel is spent per consumed
character, so `s.length` units always suffice). -/
def replaceAllGo (pat rep : List Char) : Nat → List Char → List Char
  | 0, s => s
  | _ + 1, [] => []
  | fuel + 1, c :: rest =>
    if pat.isPrefixOf (c :: rest) ∧ 1 ≤ pat.length then
      rep ++ replaceAllGo pat rep fuel (rest.drop (pat.length - 1))
    else
      c :: replaceAllGo pat rep fuel rest

/-- Python `str.replace pat rep`: scan left to right, replace every
non-overlapping occurrence, never rescanning the inserted replacement. -/
def replaceAll (pat rep : List Char) (s : List Char) : List Char :=
  replaceAllGo pat rep s.length s

/-- Helper for `collapseWs`: the Boolean records whether the previous emitted
character was (collapsed) whitespace. -/
def collapseWsGo : Bool → List Char → List Char
  | _, [] => []
  | prevWs, c :: rest =>
    if isWsChar c then
      if prevWs then collapseWsGo true rest else ' ' :: collapseWsGo true rest
    else
      c :: collapseWsGo false rest

/-- Model of `re.sub(r'\s+', ' ', s)`: each maximal whitespace run becomes one
space. -/
def collapseWs (s : List Char) : List Char := collapseWsGo false s

/-- Python `str.strip`: drop whitespace at both ends. -/
def trimWs (s : List Char) : List Char :=
  ((s.dropWhile isWsChar).reverse.dropWhile isWsChar).reverse

/-- Helper for `splitWs`, accumulating the current word reversed. -/
def splitWsGo : List Char → List Char → List (List Char)
  | cur, [] => if cur.isEmpty then [] else [cur.reverse]
  | cur, c :: rest =>
    if isWsChar c then
      if cur.isEmpty then splitWsGo [] rest else cur.reverse :: splitWsGo [] rest
    else
      splitWsGo (c :: cur) rest

/-- Python `str.split()` with no argument: split on whitespace runs, dropping
empty pieces. -/
def splitWs (s : List Char) : List (List Char) := splitWsGo [] s

/-- Leftmost-match scan: try the position matcher at every suffix, left to
right, as Python `re.findall` does for the patterns used here (whose matches
never benefit from backtracking the start position). -/
def scanFirst {α : Type} (f : List Char → Option α) : List Char → Option α
  | [] => f []
  | c :: rest =>
    match f (c :: rest) with
    | some a => some a
    | none => scanFirst f rest

/-- Greedy `\d+` at the head of the suffix. -/
def takeDigits (s : List Char) : List Char := s.takeWhile Char.isDigit

/-- Numeric value of a digit run, as Python `int` of the matched group. -/
def parseNatDigits (ds : List Char) : Nat :=
  ds.foldl (fun n c => 10 * n + (c.toNat - '0'.toNat)) 0

/-- Matches the regex tail `(?:years?|yrs?)` at the head of the suffix. -/
def hasYearToken (s : List Char) : Bool :=
  "year".data.isPrefixOf s || "yr".data.isPrefixOf s

/-- One-position matcher for `(\d+)\s*\+?\s*(?:years?|yrs?)`, returning the
captured number. -/
def matchNumYearsAt (s : List Char) : Option Nat :=
  let ds := takeDigits s
  if ds.isEmpty then none
  else
    let r1 := (s.drop ds.length).dropWhile isWsChar
    let r2 := match r1 with
      | '+' :: t => t
      | _ => r1
    let r3 := r2.dropWhile isWsChar
    if hasYearToken r3 then some (parseNatDigits ds) else none

/-- Leftmost match of experience pattern 1, `(\d+)\s*\+?\s*(?:years?|yrs?)`. -/
def findNumYears (s : List Char) : Option Nat := scanFirst matchNumYearsAt s

/-- One alternative of pattern 2: a literal alternative followed by
`\s*(\d+)\s*(?:years?|yrs?)`. -/
def matchMinAltAt (alt : List Char) (s : List Char) : Option Nat :=
  if alt.isPrefixOf s then
    let r := (s.drop alt.length).dropWhile isWsChar
    let ds := takeDigits r
    if ds.isEmpty then none
    else
      let r2 := (r.drop ds.length).dropWhile isWsChar
      if hasYearToken r2 then some (parseNatDigits ds) else none
  else none

/-- One-position matcher for pattern 2,
`(?:minimum|min|at least)\s*(\d+)\s*(?:years?|yrs?)`, trying the alternatives
in the regex's order. -/
def matchMinPhraseAt (s : List Char) : Option Nat :=
  match matchMinAltAt "minimum".data s with
  | some n => some n
  | none =>
    match matchMinAltAt "min".data s with
    | some n => some n
    | none => matchMinAltAt "at least".data s

/-- Leftmost match of experience pattern 2. -/
def findMinPhraseYears (s : List Char) : Option Nat := scanFirst matchMinPhraseAt s

/-- One-position matcher for pattern 3, `(\d+)-(\d+)\s*(?:years?|yrs?)`. -/
def matchRangeAt (s : List Char) : Option (Nat × Nat) :=
  let d1 := takeDigits s
  if d1.isEmpty then none
  else
    match s.drop d1.length with
    | '-' :: t =>
      let d2 := takeDigits t
      if d2.isEmpty then none
      else
        let r := (t.drop d2.length).dropWhile isWsChar
        if hasYearToken r then some (parseNatDigits d1, parseNatDigits d2) else none
    | _ => none

/-- Leftmost match of experience pattern 3. -/
def findRangeYears (s : List Char) : Option (Nat × Nat) := scanFirst matchRangeAt s

/-- Pattern 4 `(?:senior|sr\.?)`: an unanchored substring test (the regex has
no word boundaries, and the trailing `\.?` is optional). -/
def seniorPresent (s : List Char) : Bool :=
  isSubListOf "senior".data s || isSubListOf "sr".data s

/-- Pattern 5 `(?:junior|jr\.?|entry)` as a substring test. -/
def juniorPresent (s : List Char) : Bool :=
  isSubListOf "junior".data s || isSubListOf "jr".data s || isSubListOf "entry".data s

/-- Pattern 6 `(?:mid|middle)` as a substring test. -/
def midPresent (s : List Char) : Bool :=
  isSubListOf "mid".data s || isSubListOf "middle".data s

/-- Pattern 7 `(?:lead|principal|architect)` as a substring test. -/
def leadPresent (s : List Char) : Bool :=
  isSubListOf "lead".data s || isSubListOf "principal".data s ||
    isSubListOf "architect".data s

/-- The `experience_requirements` dict of `QueryProcessor`: only the keys
`min_years` and `max_years` are ever set. -/
structure ExpReq where
  min_years : Option Nat
  max_years : Option Nat
deriving DecidableEq, Repr

/-- Model of `QueryProcessor._extract_experience_requirements`: the seven
patterns are tested in their list order and every matching pattern writes its
requirement key, overwriting anything an earlier pattern stored there. -/
def extractExperience (s : List Char) : ExpReq :=
  let r : ExpReq := ⟨none, none⟩
  let r := match findNumYears s with
    | some n => { r with min_years := some n }
    | none => r
  let r := match findMinPhraseYears s with
    | some n => { r with min_years := some n }
    | none => r
  let r := match findRangeYears s with
    | some (a, b) => { r with min_years := some a, max_years := some b }
    | none => r
  let r := if seniorPresent s then { r with min_years := some 5 } else r
  let r := if juniorPresent s then { r with max_years := some 2 } else r
  let r := if midPresent s then { r with min_years := some 3 } else r
  let r := if leadPresent s then { r with min_years := some 5 } else r
  r

/-- Model of `QueryProcessor._clean_query`.  The replacement pairs are applied
in the dict's insertion order; note that `/` and `&` have already been blanked
by the special-character pass, and that `+` is rewritten to `plus` before any
experience pattern ever sees the text. -/
def cleanQueryChars (q : List Char) : List Char :=
  let c := trimWs (q.map asciiLower)
  let c := collapseWs c
  let c := c.map fun ch =>
    if isWordChar ch || isWsChar ch || ch = '+' || ch = '-' || ch = '.' then ch else ' '
  let c := replaceAll "w/".data "with".data c
  let c := replaceAll "w/o".data "without".data c
  let c := replaceAll "&".data "and".data c
  let c := replaceAll "+".data "plus".data c
  let c := replaceAll "exp".data "experience".data c
  let c := replaceAll "dev".data "developer".data c
  let c := replaceAll "eng".data "engineer".data c
  trimWs c

/-- String-level wrapper for `cleanQueryChars`. -/
def cleanQuery (q : String) : String := ⟨cleanQueryChars q.data⟩

/-- The stopword set of `QueryProcessor._extract_keywords`. -/
def stopwords : List (List Char) :=
  ["i", "need", "want", "looking", "for", "someone", "with", "who", "has", "can",
   "is", "are", "the", "a", "an", "and", "or", "but", "in", "on", "at", "to",
   "from", "by", "about", "that", "this", "these", "those", "be", "been",
   "being", "have", "had", "do", "does", "did", "will", "would", "should",
   "could", "may", "might", "must", "project", "work"].map String.data

/-- The `SKILL_SYNONYMS` table of `shared_models.py`, in insertion order. -/
def skillSynonyms : List (List Char × List (List Char)) :=
  [("ml", ["machine learning", "ai", "artificial intelligence"]),
   ("js", ["javascript", "ecmascript"]),
   ("ts", ["typescript"]),
   ("py", ["python"]),
   ("react", ["reactjs", "react.js"]),
   ("node", ["nodejs", "node.js"]),
   ("db", ["database", "databases"]),
   ("api", ["rest api", "restful api", "web api"]),
   ("cloud", ["aws", "azure", "gcp", "google cloud"]),
   ("mobile", ["ios", "android", "react native", "flutter"]),
   ("data", ["data science", "data analysis", "analytics"]),
   ("backend", ["server-side", "server side"]),
   ("frontend", ["client-side", "client side", "ui", "user interface"])
  ].map fun p => (p.1.data, p.2.map String.data)

/-- The `DOMAIN_KEYWORDS` table of `shared_models.py`, in insertion order. -/
def domainKeywordsTable : List (List Char × List (List Char)) :=
  [("healthcare", ["medical", "health", "patient", "clinical", "diagnosis",
                   "hipaa", "ehr", "emr"]),
   ("fintech", ["financial", "banking", "payment", "cryptocurrency",
                "blockchain", "trading"]),
   ("ecommerce", ["retail", "shopping", "marketplace", "commerce", "store",
                  "cart"]),
   ("education", ["learning", "educational", "academic", "student", "course",
                  "training"]),
   ("gaming", ["game", "gaming", "unity", "unreal", "graphics",
               "entertainment"]),
   ("iot", ["internet of things", "sensors", "embedded", "hardware", "device"])
  ].map fun p => (p.1.data, p.2.map String.data)

/-- Model of `QueryProcessor._extract_keywords`.  The Python code finishes
with `list(set(...))`, whose element order is unspecified (string hashing);
here `List.dedup` fixes first-occurrence order, and only membership facts are
stated about the result. -/
def extractKeywords (cleaned : List Char) : List (List Char) :=
  let ws := splitWs cleaned
  let kws := ws.filter fun w => decide (2 < w.length) && !(stopwords.contains w)
  let expanded := kws ++ kws.flatMap (fun k => (List.lookup k skillSynonyms).getD [])
  expanded.dedup

/-- The `known_skills` set of `QueryProcessor._identify_skills` (a Python set
literal, written here in source order; only membership matters). -/
def knownSkills : List (List Char) :=
  ["python", "javascript", "typescript", "java", "c++", "c#", "go", "rust",
   "php", "ruby",
   "react", "angular", "vue", "nodejs", "express", "django", "flask", "spring",
   "laravel",
   "html", "css", "sass", "scss", "bootstrap", "tailwind",
   "sql", "mysql", "postgresql", "mongodb", "redis", "elasticsearch",
   "aws", "azure", "gcp", "docker", "kubernetes", "jenkins", "terraform",
   "tensorflow", "pytorch", "scikit-learn", "pandas", "numpy", "opencv",
   "git", "github", "gitlab", "ci/cd", "devops", "agile", "scrum",
   "ios", "android", "react native", "flutter", "swift", "kotlin",
   "machine learning", "ai", "data science", "deep learning", "nlp",
   "computer vision",
   "ml", "artificial intelligence", "sklearn"].map String.data

/-- The trigger of the ML special case in `_identify_skills`. -/
def mlTrigger (cleaned : List Char) : Bool :=
  ["ml", "machine learning", "ai", "artificial intelligence"].any fun t =>
    isSubListOf t.data cleaned

/-- Model of `QueryProcessor._identify_skills`: substring hits of the known
vocabulary, keyword-vocabulary intersection, synonym expansion, then the ML
special case, finally deduplicated (the Python `list(set(...))` order is
unspecified; only membership facts are stated about the result). -/
def identifySkills (cleaned : List Char) (keywords : List (List Char)) :
    List (List Char) :=
  let a := knownSkills.filter fun sk => isSubListOf sk (cleaned.map asciiLower)
  let b := keywords.filter fun k => knownSkills.contains k
  let c := keywords.flatMap fun k => (List.lookup k skillSynonyms).getD []
  let base := a ++ b ++ c
  let base :=
    if mlTrigger (cleaned.map asciiLower) then
      if base.contains "machine learning".data then base
      else base ++ ["machine learning".data]
    else base
  let base :=
    if mlTrigger (cleaned.map asciiLower) then
      if base.contains "ml".data then base else base ++ ["ml".data]
    else base
  base.dedup

/-- Model of `QueryProcessor._identify_domain_context`: a domain is included
when any of its keywords is a substring of the cleaned query or an exact
member of the keyword list; the table order is the dict insertion order. -/
def identifyDomains (cleaned : List Char) (keywords : List (List Char)) :
    List (List Char) :=
  (domainKeywordsTable.filter fun p =>
    p.2.any (fun dk => isSubListOf dk cleaned) ||
      p.2.any (fun dk => keywords.contains dk)).map Prod.fst

/-- Model of `QueryProcessor._calculate_priority_score`. -/
def priorityScore (keywords skills domains : List (List Char)) : ℚ :=
  let score : ℚ := 0
  let score := score + keywords.length * (0.1 : ℚ)
  let score := score + skills.length * (0.3 : ℚ)
  let score := score + domains.length * (0.2 : ℚ)
  let score := if 2 < skills.length then score + 0.5 else score
  let score := if 1 < domains.length then score + 0.3 else score
  min score 5.0

/-- The `ProcessedQuery` record of `shared_models.py`. -/
structure ProcessedQuery where
  original : String
  cleaned : List Char
  keywords : List (List Char)
  skill_terms : List (List Char)
  experience_requirements : ExpReq
  domain_context : List (List Char)
  priority_score : ℚ

/-- Model of `QueryProcessor.process_query`, the full pipeline. -/
def processQuery (q : String) : ProcessedQuery :=
  let cleaned := cleanQueryChars q.data
  let keywords := extractKeywords cleaned
  let skill_terms := identifySkills cleaned keywords
  let experience_req := extractExperience cleaned
  let domain_context := identifyDomains cleaned keywords
  { original := q
    cleaned := cleaned
    keywords := keywords
    skill_terms := skill_terms
    experience_requirements := experience_req
    domain_context := domain_context
    priority_score := priorityScore keywords skill_terms domain_context }

/-! ### Employees, candidates and the two scoring variants -/

/-- Employee record (fields of the employee dicts consumed by both RAG
classes). -/
structure Employee where
  id : ℕ
  name : List Char
  experience_years : ℕ
  skills : List (List Char)
  projects : List (List Char)
  availability : List Char
deriving DecidableEq

/-- An employee dict augmented with the `similarity_score` entry that
`_semantic_search` attaches. -/
structure ScoredCandidate where
  emp : Employee
  similarity_score : ℚ
deriving DecidableEq

/-- Lowercase a character list (ASCII). -/
def lowerChars (s : List Char) : List Char := s.map asciiLower

/-- The per-skill test shared by both filtering implementations:
`any(skill.lower() in emp_skill for emp_skill in emp_skills_lower)`. -/
def skillMatchesEmp (skill : List Char) (skills : List (List Char)) : Bool :=
  skills.any fun es => isSubListOf (lowerChars skill) (lowerChars es)

/-- Number of query skill terms matching the employee's skill list. -/
def countSkillMatches (terms : List (List Char)) (skills : List (List Char)) : ℕ :=
  terms.countP fun sk => skillMatchesEmp sk skills

/-- Joined lowercase project text, `" ".join(emp['projects']).lower()`. -/
def joinedProjectsText (projects : List (List Char)) : List Char :=
  lowerChars (List.intercalate " ".data projects)

/-- Whether a query domain has a keyword hit in the project text, using the
shared `DOMAIN_KEYWORDS` table (`.get(domain, [])`). -/
def domainHit (projText : List Char) (domain : List Char) : Bool :=
  ((List.lookup domain domainKeywordsTable).getD []).any fun kw =>
    isSubListOf kw projText

/-- Number of query domains with a keyword hit in the project text. -/
def countDomainHits (domains : List (List Char)) (projText : List Char) : ℕ :=
  domains.countP fun d => domainHit projText d

/-- Step-by-step model of `GeminiEmployeeRAG._apply_advanced_filtering`'s
per-candidate body (gemini_rag.py lines 232-274), returning
`(final_score, skill_match_count)`.  Experience tests use key membership
(`'min_years' in exp_req`), the skill and domain loops mutate the running
total, and availability adjusts last. -/
def geminiScoreSteps (c : ScoredCandidate) (pq : ProcessedQuery) : ℚ × ℕ :=
  let total := c.similarity_score
  let total := match pq.experience_requirements.min_years with
    | some m => if m ≤ c.emp.experience_years then total + 0.3 else total - 0.5
    | none => total
  let total := match pq.experience_requirements.max_years with
    | some m => if c.emp.experience_years ≤ m then total + 0.2 else total - 0.2
    | none => total
  let acc := pq.skill_terms.foldl
    (fun acc sk =>
      if skillMatchesEmp sk c.emp.skills then (acc.1 + 1, acc.2 + 0.4) else acc)
    ((0 : ℕ), total)
  let total := pq.domain_context.foldl
    (fun t d => if domainHit (joinedProjectsText c.emp.projects) d then t + 0.3 else t)
    acc.2
  let total :=
    if c.emp.availability = "available".data then total + 0.1
    else if c.emp.availability = "busy".data then total - 0.2
    else total
  (total, acc.1)

/-- Final score assigned by the Gemini-RAG re-ranking. -/
def geminiFinalScore (c : ScoredCandidate) (pq : ProcessedQuery) : ℚ :=
  (geminiScoreSteps c pq).1

/-- Skill-match count recorded by the Gemini-RAG re-ranking. -/
def geminiSkillMatchCount (c : ScoredCandidate) (pq : ProcessedQuery) : ℕ :=
  (geminiScoreSteps c pq).2

/-- The adjustment formula exactly as the claim/spec sentence states it
(spec §4.4 step 4), written independently of the code for comparison. -/
def claimedAdjustedScore (c : ScoredCandidate) (pq : ProcessedQuery) : ℚ :=
  c.similarity_score
    + (match pq.experience_requirements.min_years with
       | some m => if m ≤ c.emp.experience_years then 0.3 else -0.5
       | none => 0)
    + (match pq.experience_requirements.max_years with
       | some m => if c.emp.experience_years ≤ m then 0.2 else -0.2
       | none => 0)
    + 0.4 * countSkillMatches pq.skill_terms c.emp.skills
    + 0.3 * countDomainHits pq.domain_context (joinedProjectsText c.emp.projects)
    + (if c.emp.availability = "available".data then 0.1
       else if c.emp.availability = "busy".data then -0.2
       else 0)

/-- Step-by-step model of `EmployeeRAG._apply_advanced_filtering`'s
per-candidate body (rag.py lines 446-459).  The experience test uses dict
truthiness (`exp_req.get('min_years') and ...`), so a present-but-zero or
absent `min_years` lands in the `+0.3` branch; there are no max-years,
domain or availability adjustments. -/
def ragScoreSteps (c : ScoredCandidate) (pq : ProcessedQuery) : ℚ × ℕ :=
  let score := c.similarity_score
  let score : ℚ := match pq.experience_requirements.min_years with
    | some m => if m ≠ 0 ∧ c.emp.experience_years < m then score - 0.5 else score + 0.3
    | none => score + 0.3
  let nMatches := countSkillMatches pq.skill_terms c.emp.skills
  let score := score + (nMatches : ℚ) * 0.4
  (score, nMatches)

/-- Final score assigned by the `EmployeeRAG` re-ranking. -/
def ragFinalScore (c : ScoredCandidate) (pq : ProcessedQuery) : ℚ :=
  (ragScoreSteps c pq).1

/-- Closed form of the `EmployeeRAG` re-ranking score (used by the amended
claim). -/
def ragFinalScoreClosed (c : ScoredCandidate) (pq : ProcessedQuery) : ℚ :=
  c.similarity_score
    + (match pq.experience_requirements.min_years with
       | some m => if m ≠ 0 ∧ c.emp.experience_years < m then -0.5 else 0.3
       | none => 0.3)
    + 0.4 * countSkillMatches pq.skill_terms c.emp.skills

/-- Step-by-step model of `GeminiEmployeeRAG._calculate_confidence`
(gemini_rag.py lines 311-339).  Note the experience branch: key present and
met adds 20, key present and unmet adds nothing, key absent adds 10; the
result is capped above at 100 and nowhere below. -/
def geminiCalculateConfidence (c : ScoredCandidate) (skillMatchCount : ℕ)
    (pq : ProcessedQuery) : ℚ :=
  let confidence : ℚ := 0
  let confidence := confidence + min (c.similarity_score * 100) 45
  let ratio : ℚ := (skillMatchCount : ℚ) / (max pq.skill_terms.length 1 : ℕ)
  let confidence := confidence + ratio * 30
  let confidence := match pq.experience_requirements.min_years with
    | some m => if m ≤ c.emp.experience_years then confidence + 20 else confidence
    | none => confidence + 10
  let confidence :=
    if pq.domain_context.isEmpty then confidence
    else
      confidence +
        ((countDomainHits pq.domain_context (joinedProjectsText c.emp.projects) : ℚ) /
            (pq.domain_context.length : ℚ)) * 5
  min confidence 100

/-- Closed form of the Gemini confidence score (used by the amended claim). -/
def geminiConfidenceClosed (c : ScoredCandidate) (skillMatchCount : ℕ)
    (pq : ProcessedQuery) : ℚ :=
  min
    (min (c.similarity_score * 100) 45
      + ((skillMatchCount : ℚ) / (max pq.skill_terms.length 1 : ℕ)) * 30
      + (match pq.experience_requirements.min_years with
         | some m => if m ≤ c.emp.experience_years then 20 else 0
         | none => 10)
      + (if pq.domain_context.isEmpty then 0
         else ((countDomainHits pq.domain_context (joinedProjectsText c.emp.projects) : ℚ) /
            (pq.domain_context.length : ℚ)) * 5))
    100

/-- Step-by-step model of `EmployeeRAG._calculate_confidence` (rag.py lines
472-480): no domain term at all, experience branch by truthiness, capped
above at 100 only. -/
def ragCalculateConfidence (c : ScoredCandidate) (skillMatchCount : ℕ)
    (pq : ProcessedQuery) : ℚ :=
  let confidence := min (c.similarity_score * 100) 45
  let ratio : ℚ := (skillMatchCount : ℚ) / (max pq.skill_terms.length 1 : ℕ)
  let confidence := confidence + ratio * 30
  let confidence := match pq.experience_requirements.min_years with
    | some m =>
      if m ≠ 0 ∧ m ≤ c.emp.experience_years then confidence + 20 else confidence + 10
    | none => confidence + 10
  min confidence 100

/-- Closed form of the `EmployeeRAG` confidence score (used by the amended
claim). -/
def ragConfidenceClosed (c : ScoredCandidate) (skillMatchCount : ℕ)
    (pq : ProcessedQuery) : ℚ :=
  min
    (min (c.similarity_score * 100) 45
      + ((skillMatchCount : ℚ) / (max pq.skill_terms.length 1 : ℕ)) * 30
      + (match pq.experience_requirements.min_years with
         | some m => if m ≠ 0 ∧ m ≤ c.emp.experience_years then 20 else 10
         | none => 10))
    100

/-- The confidence formula exactly as the claim states it: `min(sim·100,45) +
ratio·30 + (20 if min_years met else 10) + domain_ratio·5`, clamped to the
interval `[0,100]`, with the domain term skipped when `domain_context` is
empty. -/
def claimedConfidence (c : ScoredCandidate) (skillMatchCount : ℕ)
    (pq : ProcessedQuery) : ℚ :=
  let raw :=
    min (c.similarity_score * 100) 45
      + ((skillMatchCount : ℚ) / (max pq.skill_terms.length 1 : ℕ)) * 30
      + (match pq.experience_requirements.min_years with
         | some m => if m ≤ c.emp.experience_years then (20 : ℚ) else 10
         | none => 10)
      + (if pq.domain_context.isEmpty then 0
         else ((countDomainHits pq.domain_context (joinedProjectsText c.emp.projects) : ℚ) /
            (pq.domain_context.length : ℚ)) * 5)
  max 0 (min raw 100)

/-! ### The vector-search ordering (`np.argsort(similarities)[::-1][:top_k]`) -/

/-- Similarity of employee row `i` (out-of-range reads never occur in the
code; `getD` keeps the model total). -/
def simAt (sims : List ℚ) (i : ℕ) : ℚ := sims.getD i 0

/-- Ascending order on row indices by similarity, with index order on ties:
the deterministic stable model of `np.argsort(similarities)` (NumPy's default
sort leaves tie order unspecified; the stable reading is the one most
favourable to the spec's tie-break sentence, and it is what NumPy's
insertion sort produces on the small arrays at issue). -/
def ascLex (sims : List ℚ) (i j : ℕ) : Prop :=
  simAt sims i < simAt sims j ∨ (simAt sims i = simAt sims j ∧ i ≤ j)

instance (sims : List ℚ) : DecidableRel (ascLex sims) := fun i j => by
  unfold ascLex
  infer_instance

instance (sims : List ℚ) : IsTotal ℕ (ascLex sims) := by
  constructor
  intro i j
  unfold ascLex
  rcases lt_trichotomy (simAt sims i) (simAt sims j) with h | h | h
  · exact Or.inl (Or.inl h)
  · rcases Nat.le_total i j with hij | hij
    · exact Or.inl (Or.inr ⟨h, hij⟩)
    · exact Or.inr (Or.inr ⟨h.symm, hij⟩)
  · exact Or.inr (Or.inl h)

instance (sims : List ℚ) : IsTrans ℕ (ascLex sims) := by
  constructor
  intro i j k hij hjk
  unfold ascLex at *
  rcases hij with hij | ⟨he₁, hi₁⟩
  · rcases hjk with hjk | ⟨he₂, _⟩
    · exact Or.inl (hij.trans hjk)
    · exact Or.inl (he₂ ▸ hij)
  · rcases hjk with hjk | ⟨he₂, hi₂⟩
    · exact Or.inl (he₁ ▸ hjk)
    · exact Or.inr ⟨he₁.trans he₂, hi₁.trans hi₂⟩

/-- Stable model of `np.argsort(similarities)` (ascending). -/
def argsortAsc (sims : List ℚ) : List ℕ :=
  List.insertionSort (ascLex sims) (List.range sims.length)

/-- Index order produced by `EmployeeRAG._semantic_search`'s NumPy fallback:
`np.argsort(similarities)[::-1][:top_k]`. -/
def semanticTopIndices (sims : List ℚ) (k : ℕ) : List ℕ :=
  ((argsortAsc sims).reverse).take k

/-- The order the claim asserts: descending similarity with ties in original
storage (index) order — a stable descending sort, written from the spec
sentence for comparison. -/
def specClaimedOrder (sims : List ℚ) (k : ℕ) : List ℕ :=
  (List.insertionSort
    (fun i j => simAt sims j < simAt sims i ∨ (simAt sims i = simAt sims j ∧ i ≤ j))
    (List.range sims.length)).take k

instance (sims : List ℚ) :
    DecidableRel fun i j =>
      simAt sims j < simAt sims i ∨ (simAt sims i = simAt sims j ∧ i ≤ j) := fun i j => by
  infer_instance

/-! ### The in-process cache (`cache.MemoryCache`) -/

/-- Model of `MemoryCache`: the dict `_store` becomes an association list in
dict insertion order (Python dicts preserve insertion order, and overwriting
a key keeps its position).  The `prefix` constructor argument is renamed, as
`prefix` is reserved in Lean. -/
structure MemoryCache (V : Type) where
  keyPfx : List Char
  capacity : ℕ
  default_ttl : ℕ
  store : List (List Char × (ℚ × ℕ × V))

/-- A freshly constructed `MemoryCache` (empty `_store`). -/
def memEmpty (V : Type) (pfx : List Char) (capacity default_ttl : ℕ) :
    MemoryCache V :=
  { keyPfx := pfx, capacity := capacity, default_ttl := default_ttl, store := [] }

/-- Model of `MemoryCache._pk`: `f"{prefix}:{key}" if prefix else key`. -/
def pkOf {V : Type} (c : MemoryCache V) (key : List Char) : List Char :=
  if c.keyPfx.isEmpty then key else c.keyPfx ++ ":".data ++ key

/-- Dict write `d[k] = e`: overwrite in place if present, else append. -/
def updateAssoc {E : Type} : List (List Char × E) → List Char → E →
    List (List Char × E)
  | [], k, e => [(k, e)]
  | (k', e') :: rest, k, e =>
    if k' = k then (k, e) :: rest else (k', e') :: updateAssoc rest k e

/-- Model of `MemoryCache.get` at an explicit current time: a missing key is
a miss; an entry older than its TTL is popped and reported as a miss
(`time.time() - ts > ttl`); otherwise the value is returned. -/
def memGet {V : Type} (c : MemoryCache V) (key : List Char) (now : ℚ) :
    Option V × MemoryCache V :=
  let pk := pkOf c key
  match List.lookup pk c.store with
  | none => (none, c)
  | some (ts, ttl, v) =>
    if (ttl : ℚ) < now - ts then
      (none, { c with store := c.store.filter fun p => !(p.1 = pk : Bool) })
    else (some v, c)

/-- Model of `MemoryCache.set`: when the store is at capacity the
first-inserted key (`next(iter(self._store))`) is evicted before the write;
the stored TTL is `int(ttl_seconds or self.default_ttl)` (Python `or`, so
`None` and `0` both fall back to the default). -/
def memSet {V : Type} (c : MemoryCache V) (key : List Char) (v : V)
    (ttlSeconds : Option ℕ) (now : ℚ) : MemoryCache V :=
  let pk := pkOf c key
  let store := if c.capacity ≤ c.store.length then c.store.drop 1 else c.store
  let ttl := match ttlSeconds with
    | some t => if t = 0 then c.default_ttl else t
    | none => c.default_ttl
  { c with store := updateAssoc store pk (now, ttl, v) }

/-- Model of `MemoryCache.size`. -/
def memSize {V : Type} (c : MemoryCache V) : ℕ := c.store.length

/-- A client-visible cache operation, for stating invariants over arbitrary
operation sequences. -/
inductive CacheOp (V : Type) where
  | get (key : List Char) (now : ℚ)
  | set (key : List Char) (v : V) (ttl : Option ℕ) (now : ℚ)

/-- Run a sequence of cache operations, threading the state. -/
def runOps {V : Type} : MemoryCache V → List (CacheOp V) → MemoryCache V
  | c, [] => c
  | c, CacheOp.get k now :: rest => runOps (memGet c k now).2 rest
  | c, CacheOp.set k v ttl now :: rest => runOps (memSet c k v ttl now) rest

/-! ### `EmployeeRAG.enhanced_search` -/

/-- The `SearchResult` dataclass of `shared_models.py` (a plain dataclass —
in particular it has no pydantic `model_dump` method). -/
structure SearchResult where
  employee : Employee
  relevance_score : ℚ
  match_reasons : List (List Char)
  confidence : ℚ
deriving DecidableEq

/-- A candidate dict after `_apply_advanced_filtering` attached
`skill_match_count` and `final_score`. -/
structure FilteredCandidate where
  cand : ScoredCandidate
  skill_match_count : ℕ
  final_score : ℚ
deriving DecidableEq

instance : DecidableRel fun a b : FilteredCandidate => b.final_score ≤ a.final_score :=
  fun a b => by infer_instance

/-- Model of `EmployeeRAG._apply_advanced_filtering` on a candidate list:
score every candidate, then `sorted(..., key=final_score, reverse=True)` —
Python's sort is stable, so ties keep the incoming order. -/
def ragApplyFiltering (cands : List ScoredCandidate) (pq : ProcessedQuery) :
    List FilteredCandidate :=
  List.insertionSort (fun a b => b.final_score ≤ a.final_score)
    (cands.map fun c =>
      { cand := c
        skill_match_count := (ragScoreSteps c pq).2
        final_score := (ragScoreSteps c pq).1 })

/-- Model of `EmployeeRAG._generate_match_reasons`. -/
def ragMatchReasons (e : Employee) (pq : ProcessedQuery) : List (List Char) :=
  (pq.skill_terms.filter fun sk => skillMatchesEmp sk e.skills).map
      (fun sk => "Has skill: ".data ++ sk)
    ++ (match pq.experience_requirements.min_years with
        | some m =>
          if m ≠ 0 ∧ m ≤ e.experience_years then
            ["Meets experience: ".data ++ (toString e.experience_years).data ++
              " years".data]
          else []
        | none => [])

/-- Model of `EmployeeRAG._create_search_query_text`: cleaned query plus
optional skill / domain / minimum-experience clauses, joined by `" | "`
(the min-years clause is guarded by dict truthiness). -/
def createSearchQueryText (pq : ProcessedQuery) : List Char :=
  let comps := [pq.cleaned]
  let comps := if pq.skill_terms.isEmpty then comps
    else comps ++ ["Required skills: ".data ++ List.intercalate ", ".data pq.skill_terms]
  let comps := if pq.domain_context.isEmpty then comps
    else comps ++
      ["Domain experience: ".data ++ List.intercalate ", ".data pq.domain_context]
  let comps := match pq.experience_requirements.min_years with
    | some m =>
      if m ≠ 0 then
        comps ++ ["Minimum ".data ++ (toString m).data ++ " years experience".data]
      else comps
    | none => comps
  List.intercalate " | ".data comps

/-- Fallback employee for the total `getD` read (the Python code only ever
indexes in range). -/
def defaultEmployee : Employee :=
  { id := 0, name := [], experience_years := 0, skills := [], projects := [],
    availability := [] }

/-- State of an `EmployeeRAG` instance, as `enhanced_search` observes it.
The embedding strategy and the dot-product against the employee matrix are
external dependencies; they are abstracted as `simsFor`, the similarity row the
NumPy fallback computes for a given search text (the FAISS branch is not
modelled: it is inactive whenever FAISS is unavailable or disabled). -/
structure RagState where
  employees : List Employee
  hasStrategy : Bool
  embeddingsReady : Bool
  simsFor : String → List ℚ
  cache : MemoryCache (List SearchResult)

/-- Model of `EmployeeRAG.is_active`: a strategy was constructed and the
embedding matrix exists. -/
def isActive (s : RagState) : Bool := s.hasStrategy && s.embeddingsReady

/-- The cache key of `enhanced_search`: `f"{query.lower().strip()}_{top_k}"`. -/
def cacheKeyChars (q : String) (topK : ℕ) : List Char :=
  trimWs (q.data.map asciiLower) ++ "_".data ++ (toString topK).data

/-- Model of `EmployeeRAG._semantic_search`'s NumPy fallback: embed the
composite search text, rank all employees by `argsort` descending, keep
`top_k`, and attach each similarity to the employee dict. -/
def semanticSearch (s : RagState) (pq : ProcessedQuery) (topK : ℕ) :
    List ScoredCandidate :=
  let sims := s.simsFor ⟨createSearchQueryText pq⟩
  (semanticTopIndices sims topK).map fun i =>
    { emp := s.employees.getD i defaultEmployee, similarity_score := simAt sims i }

/-- The compute-and-store tail of `enhanced_search` (after a cache miss):
run the pipeline, then attempt
`self._cache.set(cache_key, [r.model_dump() for r in detailed_results])`.
`SearchResult` is a plain dataclass without `model_dump`, so for a nonempty
result list the comprehension raises `AttributeError`, which the surrounding
`except Exception: pass` swallows — nothing is stored.  Only the empty
comprehension `[]` avoids the call, so only an empty result list reaches the
cache. -/
def computeAndStore (s : RagState) (q : String) (key : List Char) (topK : ℕ)
    (now : ℚ) : List SearchResult × RagState :=
  let pq := processQuery q
  let sem := semanticSearch s pq (topK * 2)
  let filtered := ragApplyFiltering sem pq
  let detailed := (filtered.take topK).map fun f =>
    { employee := f.cand.emp
      relevance_score := f.final_score
      match_reasons := ragMatchReasons f.cand.emp pq
      confidence := ragCalculateConfidence f.cand f.skill_match_count pq : SearchResult }
  let cache2 := if detailed.isEmpty then memSet s.cache key detailed none now else s.cache
  (detailed, { s with cache := cache2 })

/-- Model of `EmployeeRAG.enhanced_search`: inactive systems answer `[]`
immediately; otherwise the result cache is consulted (an empty cached list
is falsy — `if cached:` — and is treated as a miss), and on a miss the
pipeline recomputes. -/
def enhancedSearch (s : RagState) (q : String) (topK : ℕ) (now : ℚ) :
    List SearchResult × RagState :=
  if !isActive s then ([], s)
  else
    let key := cacheKeyChars q topK
    let got := memGet s.cache key now
    match got.1 with
    | some l =>
      if l.isEmpty then computeAndStore { s with cache := got.2 } q key topK now
      else (l, { s with cache := got.2 })
    | none => computeAndStore { s with cache := got.2 } q key topK now

/-! ### Embedding normalization (`ai_client.GeminiClient`,
`rag.SentenceTransformerEmbedding`) -/

/-- Sum of squares of a vector — the square of its L2 norm. -/
def sumSq (v : List ℚ) : ℚ := (v.map fun x => x * x).sum

/-- Post-processing of one embedding in `GeminiClient.get_embedding` /
`get_batch_embeddings`: for output dimensionality below 3072 the provider
vector is divided componentwise by `np.linalg.norm(values)`; otherwise it is
returned unchanged.  The norm is passed here as the certified parameter
`nrm` (intended: `0 ≤ nrm` and `nrm * nrm = sumSq raw`), since square roots
are not rational. -/
def geminiPostprocessEmbedding (raw : List ℚ) (nrm : ℚ)
    (outputDimensionality : ℕ) : List ℚ :=
  if outputDimensionality < 3072 then raw.map fun x => x / nrm else raw

/-- Model of `SentenceTransformerEmbedding.prepare_embeddings` (rag.py lines
104-106): the strategy returns `self.model.encode(texts)` unchanged — the
external model is an uninterpreted function and the strategy applies no
normalization of its own. -/
def sentenceTransformerPrepareEmbeddings
    (modelEncode : List String → List (List ℚ)) (texts : List String) :
    List (List ℚ) :=
  modelEncode texts

/-- Model of `SentenceTransformerEmbedding.create_query_embedding` (rag.py
lines 108-109): `self.model.encode([text])`, again unchanged. -/
def sentenceTransformerQueryEmbedding
    (modelEncode : List String → List (List ℚ)) (text : String) :
    List (List ℚ) :=
  modelEncode [text]

/-! ### Helper lemmas -/

/-- A loop that adds `c` for every element satisfying `p` and counts them
computes `(count, start + c·count)`. -/
lemma foldl_pair_count {α : Type} (p : α → Bool) (c : ℚ) :
    ∀ (l : List α) (n0 : ℕ) (t0 : ℚ),
      l.foldl (fun acc x => if p x then (acc.1 + 1, acc.2 + c) else acc) (n0, t0)
        = (n0 + l.countP p, t0 + c * l.countP p) := by
  intro l
  induction l with
  | nil => intro n0 t0; simp
  | cons a l ih =>
    intro n0 t0
    by_cases h : p a
    · simp [h, ih, List.countP_cons, Prod.mk.injEq]
      constructor
      · omega
      · push_cast
        ring
    · simp [h, ih, List.countP_cons]

/-- A loop that adds `c` for every element satisfying `p` adds `c·count` in
total. -/
lemma foldl_add_count {α : Type} (p : α → Bool) (c : ℚ) :
    ∀ (l : List α) (t0 : ℚ),
      l.foldl (fun t x => if p x then t + c else t) t0 = t0 + c * l.countP p := by
  intro l
  induction l with
  | nil => intro t0; simp
  | cons a l ih =>
    intro t0
    by_cases h : p a
    · simp [h, ih, List.countP_cons]
      push_cast
      ring
    · simp [h, ih, List.countP_cons]

/-! ### Claims -/

/-- C1 (amended): the claimed adjustment list (experience ±0.3/−0.5 and
±0.2, +0.4 per matched skill, +0.3 per matched domain, availability
+0.1/−0.2/0) is exactly what `GeminiEmployeeRAG._apply_advanced_filtering`
computes; `EmployeeRAG._apply_advanced_filtering` instead computes only the
min-years term (awarding +0.3 also when `min_years` is absent or zero) plus
0.4 per matched skill term, with no max-years, domain or availability
adjustments. -/
theorem claim1_scoring_formulas (c : ScoredCandidate) (pq : ProcessedQuery) :
    geminiFinalScore c pq = claimedAdjustedScore c pq ∧
      ragFinalScore c pq = ragFinalScoreClosed c pq := by
  constructor
  · unfold geminiFinalScore geminiScoreSteps claimedAdjustedScore countSkillMatches
      countDomainHits
    simp only [foldl_pair_count, foldl_add_count]
    rcases pq.experience_requirements.min_years with _ | m <;>
      rcases pq.experience_requirements.max_years with _ | mx <;>
        simp only [] <;> (try split_ifs) <;> (push_cast; ring)
  · unfold ragFinalScore ragScoreSteps ragFinalScoreClosed
    rcases pq.experience_requirements.min_years with _ | m <;>
      simp only [] <;> (try split_ifs) <;> (push_cast; ring)

/-- C1 counterexample: for a candidate with similarity 0, no skills and
availability `busy`, under a query with no extracted requirements,
`EmployeeRAG`'s re-ranking yields 0.3 while the claimed adjustment list
yields −0.2. -/
theorem claim1_counterexample :
    ragFinalScore
        { emp := { id := 1, name := "e".data, experience_years := 3, skills := [],
                   projects := [], availability := "busy".data },
          similarity_score := 0 }
        { original := "", cleaned := [], keywords := [], skill_terms := [],
          experience_requirements := { min_years := none, max_years := none },
          domain_context := [], priority_score := 0 }
      ≠
      claimedAdjustedScore
        { emp := { id := 1, name := "e".data, experience_years := 3, skills := [],
                   projects := [], availability := "busy".data },
          similarity_score := 0 }
        { original := "", cleaned := [], keywords := [], skill_terms := [],
          experience_requirements := { min_years := none, max_years := none },
          domain_context := [], priority_score := 0 } := by
  simp [ragFinalScore, ragScoreSteps, claimedAdjustedScore, countSkillMatches,
    countDomainHits]
  norm_num

/-- C2 (amended): `GeminiEmployeeRAG._calculate_confidence` equals
`min(sim·100,45) + skill_ratio·30 + (20 if min_years present and met, 0 if
present and unmet, 10 if absent) + (domain_ratio·5 when domain_context is
nonempty), capped above at 100 and not clamped below`;
`EmployeeRAG._calculate_confidence` has no domain term at all and awards 20
exactly when `min_years` is present, nonzero and met, else 10, again capped
above at 100 only. -/
theorem claim2_confidence_formulas (c : ScoredCandidate) (skillMatchCount : ℕ)
    (pq : ProcessedQuery) :
    geminiCalculateConfidence c skillMatchCount pq
        = geminiConfidenceClosed c skillMatchCount pq ∧
      ragCalculateConfidence c skillMatchCount pq
        = ragConfidenceClosed c skillMatchCount pq := by
  constructor
  · unfold geminiCalculateConfidence geminiConfidenceClosed
    rcases pq.experience_requirements.min_years with _ | m <;>
      simp only [] <;> split_ifs <;> (congr 1 <;> (push_cast; ring))
  · unfold ragCalculateConfidence ragConfidenceClosed
    rcases pq.experience_requirements.min_years with _ | m <;>
      simp only [] <;> split_ifs <;> (congr 1 <;> (push_cast; ring))

/-- C2 counterexample: for a candidate with similarity 0 and no skill
matches, under a query requiring `min_years = 5` that the candidate (3
years) fails, `GeminiEmployeeRAG._calculate_confidence` returns 0 while the
claimed formula returns 10 (its "else 10" branch). -/
theorem claim2_counterexample :
    geminiCalculateConfidence
        { emp := { id := 1, name := "e".data, experience_years := 3, skills := [],
                   projects := [], availability := "busy".data },
          similarity_score := 0 }
        0
        { original := "", cleaned := [], keywords := [], skill_terms := [],
          experience_requirements := { min_years := some 5, max_years := none },
          domain_context := [], priority_score := 0 }
      ≠
      claimedConfidence
        { emp := { id := 1, name := "e".data, experience_years := 3, skills := [],
                   projects := [], availability := "busy".data },
          similarity_score := 0 }
        0
        { original := "", cleaned := [], keywords := [], skill_terms := [],
          experience_requirements := { min_years := some 5, max_years := none },
          domain_context := [], priority_score := 0 } := by
  simp [geminiCalculateConfidence, claimedConfidence, countSkillMatches,
    countDomainHits]
  norm_num

set_option maxRecDepth 40000

/-- C3: evaluating the query pipeline at the spec's scenario query.  The
`_clean_query` replacement pass rewrites `+` to `plus` (and self-corrupts
`experience` and `developer` via the `exp`/`dev` abbreviations), so the
numeric pattern `(\d+)\s*\+?\s*(?:years?|yrs?)` — whose `\+?` was written
precisely for "5+ years" — can no longer match, and no experience
requirement is extracted: `min_years` is absent, against the claimed
`min_years == 5`.  The skill and domain conjuncts of the claim do hold. -/
theorem claim3_scenario_eval :
    (processQuery "Python developer with 5+ years experience in healthcare").cleaned
        = "python developereloper with 5plus years experienceerience in healthcare".data
      ∧ (processQuery "Python developer with 5+ years experience in healthcare").experience_requirements
        = { min_years := none, max_years := none }
      ∧ (processQuery "Python developer with 5+ years experience in healthcare").skill_terms.contains
          "python".data = true
      ∧ (processQuery "Python developer with 5+ years experience in healthcare").domain_context.contains
          "healthcare".data = true := by
  decide

/-- C4 counterexample: in the query "senior 6 years" the numeric pattern
matches and captures 6, yet the extracted `min_years` is not 6 (it is 5,
written by the later `senior` pattern) — the first matching pattern does not
determine the result. -/
theorem claim4_counterexample :
    findNumYears (cleanQueryChars "senior 6 years".data) = some 6 ∧
      (extractExperience (cleanQueryChars "senior 6 years".data)).min_years ≠ some 6 := by
  decide

/-- C4 (amended): the patterns are tested in order but every later matching
pattern overwrites the requirement key, so the last matching pattern wins.
In particular whenever the `lead` pattern matches, or the `senior` pattern
matches and the `mid` pattern does not, `min_years` is 5 — regardless of any
numeric phrase in the query. -/
theorem claim4_last_pattern_wins (s : List Char)
    (h : leadPresent s = true ∨ (seniorPresent s = true ∧ midPresent s = false)) :
    (extractExperience s).min_years = some 5 := by
  rcases h with hl | ⟨hs, hm⟩
  · simp [extractExperience, hl]
  · cases hl : leadPresent s
    · cases hj : juniorPresent s <;> simp [extractExperience, hs, hm, hl, hj]
    · simp [extractExperience, hl]

/-- Witness for C4 (amended) at the concrete query "senior 6 years". -/
theorem claim4_last_pattern_wins_witness :
    (leadPresent (cleanQueryChars "senior 6 years".data) = true ∨
        (seniorPresent (cleanQueryChars "senior 6 years".data) = true ∧
          midPresent (cleanQueryChars "senior 6 years".data) = false)) ∧
      (extractExperience (cleanQueryChars "senior 6 years".data)).min_years = some 5 :=
  ⟨Or.inr ⟨by decide, by decide⟩,
    claim4_last_pattern_wins _ (Or.inr ⟨by decide, by decide⟩)⟩

/-- C5 (amended): for every similarity list and every `k`, the index order
returned by the NumPy fallback of `_semantic_search` is strictly descending
by similarity, and any two candidates with equal similarity appear in
reverse storage order (the later-stored employee first), because the code
reverses a stable ascending argsort. -/
theorem claim5_descending_reverse_ties (sims : List ℚ) (k : ℕ) :
    List.Pairwise
      (fun i j => simAt sims j < simAt sims i ∨ (simAt sims i = simAt sims j ∧ j < i))
      (semanticTopIndices sims k) := by
  have hs : List.Sorted (ascLex sims) (argsortAsc sims) :=
    List.sorted_insertionSort _ _
  have hnd : (argsortAsc sims).Nodup := by
    unfold argsortAsc
    exact (List.perm_insertionSort _ _).symm.nodup (List.nodup_range _)
  have hp : List.Pairwise (fun i j => ascLex sims i j ∧ i ≠ j) (argsortAsc sims) :=
    List.Pairwise.and hs hnd
  have hrev : List.Pairwise (fun i j => ascLex sims j i ∧ j ≠ i)
      (argsortAsc sims).reverse :=
    List.pairwise_reverse.mpr hp
  have htake := List.Pairwise.sublist (List.take_sublist k _) hrev
  refine htake.imp ?_
  intro i j h
  rcases h with ⟨hlt | ⟨heq, hle⟩, hne⟩
  · exact Or.inl hlt
  · exact Or.inr ⟨heq.symm, lt_of_le_of_ne hle hne⟩

/-- C5 counterexample: with two employees of equal similarity, the search
emits index 1 before index 0 — the reverse of the original storage order the
claim asserts (`specClaimedOrder` is the stable descending order written
from the spec sentence). -/
theorem claim5_counterexample :
    semanticTopIndices [1, 1] 2 = [1, 0] ∧ specClaimedOrder [1, 1] 2 = [0, 1] ∧
      simAt [1, 1] 0 = simAt [1, 1] 1 ∧
      semanticTopIndices [1, 1] 2 ≠ specClaimedOrder [1, 1] 2 := by
  decide

/-- C7: whenever `is_active()` is false, `enhanced_search` returns the empty
result list and leaves the state untouched, for every query text, `top_k`
and time — the guard precedes every fallible step, so no exception can
arise. -/
theorem claim7_inactive_empty (s : RagState) (q : String) (topK : ℕ) (now : ℚ)
    (h : isActive s = false) : enhancedSearch s q topK now = ([], s) := by
  simp [enhancedSearch, h]

/-- Witness for C7 at a concrete inactive state. -/
theorem claim7_inactive_empty_witness :
    isActive
        { employees := [], hasStrategy := false, embeddingsReady := false,
          simsFor := fun _ => [], cache := memEmpty _ "rag:query".data 1000 300 }
        = false ∧
      enhancedSearch
          { employees := [], hasStrategy := false, embeddingsReady := false,
            simsFor := fun _ => [], cache := memEmpty _ "rag:query".data 1000 300 }
          "any query" 5 0
        = ([],
           { employees := [], hasStrategy := false, embeddingsReady := false,
             simsFor := fun _ => [], cache := memEmpty _ "rag:query".data 1000 300 }) :=
  ⟨rfl, claim7_inactive_empty _ "any query" 5 0 rfl⟩

/-- The concrete active `EmployeeRAG` state used to exhibit the result-cache
bug of C6: one employee with skill `Java`, a memory-backed result cache, and
a constant similarity row standing for the embedding dot product. -/
def claim6State : RagState :=
  { employees := [{ id := 1, name := "A".data, experience_years := 3,
                    skills := ["Java".data], projects := [],
                    availability := "available".data }],
    hasStrategy := true, embeddingsReady := true,
    simsFor := fun _ => [1],
    cache := memEmpty _ "rag:query".data 1000 300 }

/-- C6: after `enhanced_search` computes a nonempty result on a cache miss,
nothing is stored in the result cache — `[r.model_dump() for r in results]`
raises `AttributeError` on the plain-dataclass `SearchResult` and the
surrounding `except Exception: pass` swallows it — so the immediately
repeated identical call misses the cache again instead of reading a stored
value. -/
theorem claim6_result_never_cached :
    (enhancedSearch claim6State "java" 5 0).1.length = 1 ∧
      (enhancedSearch claim6State "java" 5 0).2.cache.store = [] ∧
      (memGet (enhancedSearch claim6State "java" 5 0).2.cache
          (cacheKeyChars "java" 5) 1).1 = none := by
  refine ⟨?_, ?_, ?_⟩ <;> decide

lemma updateAssoc_length_le {E : Type} (s : List (List Char × E)) (k : List Char) (e : E) :
    (updateAssoc s k e).length ≤ s.length + 1 := by
  induction s with
  | nil => simp [updateAssoc]
  | cons p rest ih =>
    by_cases h : p.1 = k <;> simp [updateAssoc, h] <;> omega

lemma memGet_size_le {V : Type} (c : MemoryCache V) (k : List Char) (now : ℚ) :
    memSize (memGet c k now).2 ≤ memSize c := by
  unfold memGet memSize
  rcases h : List.lookup (pkOf c k) c.store with _ | ⟨ts, ttl, v⟩
  · simp [h]
  · by_cases hf : (ttl : ℚ) < now - ts
    · simp only [h, hf, if_true]
      exact List.length_filter_le _ _
    · simp [h, hf]

lemma memGet_capacity {V : Type} (c : MemoryCache V) (k : List Char) (now : ℚ) :
    (memGet c k now).2.capacity = c.capacity := by
  unfold memGet
  rcases h : List.lookup (pkOf c k) c.store with _ | ⟨ts, ttl, v⟩
  · simp [h]
  · by_cases hf : (ttl : ℚ) < now - ts <;> simp [h, hf]

lemma memSet_capacity {V : Type} (c : MemoryCache V) (k : List Char) (v : V)
    (ts : Option ℕ) (now : ℚ) : (memSet c k v ts now).capacity = c.capacity := rfl

lemma memSet_size_le {V : Type} (c : MemoryCache V) (k : List Char) (v : V)
    (ts : Option ℕ) (now : ℚ) (hcap : 1 ≤ c.capacity) (h : memSize c ≤ c.capacity) :
    memSize (memSet c k v ts now) ≤ c.capacity := by
  unfold memSet memSize
  simp only [memSize] at h
  by_cases hfull : c.capacity ≤ c.store.length
  · simp only [hfull, if_true]
    have h1 := updateAssoc_length_le (c.store.drop 1) (pkOf c k)
      ((now, (match ts with | some t => if t = 0 then c.default_ttl else t | none => c.default_ttl), v))
    have h2 : (c.store.drop 1).length = c.store.length - 1 := by simp
    omega
  · simp only [hfull, if_false]
    have h1 := updateAssoc_length_le c.store (pkOf c k)
      ((now, (match ts with | some t => if t = 0 then c.default_ttl else t | none => c.default_ttl), v))
    omega

lemma runOps_size_le {V : Type} (ops : List (CacheOp V)) :
    ∀ (c : MemoryCache V), 1 ≤ c.capacity → memSize c ≤ c.capacity →
      memSize (runOps c ops) ≤ c.capacity := by
  induction ops with
  | nil => intro c _ h; simpa [runOps] using h
  | cons op rest ih =>
    intro c hcap h
    cases op with
    | get k now =>
      have hc := memGet_capacity c k now
      have := ih (memGet c k now).2 (by omega) (le_trans (memGet_size_le c k now) (by omega))
      simpa [runOps, hc] using this
    | set k v ttl now =>
      have hc := memSet_capacity c k v ttl now
      have := ih (memSet c k v ttl now) (by omega)
        (by rw [hc]; exact memSet_size_le c k v ttl now hcap h)
      simpa [runOps, hc] using this


lemma mem_keys_updateAssoc {E : Type} (s : List (List Char × E)) (k : List Char)
    (e : E) (x : List Char) :
    x ∈ (updateAssoc s k e).map Prod.fst ↔ x ∈ s.map Prod.fst ∨ x = k := by
  induction s with
  | nil => simp [updateAssoc]
  | cons p rest ih =>
    by_cases h : p.1 = k
    · simp only [updateAssoc, h, if_true, List.map_cons, List.mem_cons]
      constructor
      · intro h'
        exact Or.inl (h ▸ h')
      · intro h'
        rcases h' with h' | h'
        · exact h ▸ h'
        · exact Or.inl h'
    · simp only [updateAssoc, h, if_false, List.map_cons, List.mem_cons, ih, or_assoc]


/-- Dividing every component by `n` divides the sum of squares by `n²`
(also when `n = 0`, since division by zero is zero). -/
lemma sumSq_map_div (v : List ℚ) (n : ℚ) :
    sumSq (v.map fun x => x / n) = sumSq v / (n * n) := by
  induction v with
  | nil => simp [sumSq]
  | cons a v ih =>
    simp only [sumSq, List.map_cons, List.map_map, List.sum_cons] at *
    rw [ih, div_mul_div_comm, div_add_div_same]

/-- C8: in a capacity-2 in-process cache, `set(A)`, `set(B)`, `set(C)` with
three distinct keys evicts exactly `A`, the oldest-inserted key; within the
TTL, `get(B)` and `get(C)` return their stored values and `get(A)` returns
nothing (the cache is the default-prefix `MemoryCache`, so the stored key is
the raw key). -/
theorem claim8_fifo_eviction (V : Type) (kA kB kC : List Char) (vA vB vC : V)
    (ttl : ℕ) (t t' : ℚ)
    (hAB : kA ≠ kB) (hAC : kA ≠ kC) (hBC : kB ≠ kC) (hfresh : t' - t ≤ (ttl : ℚ)) :
    ((memSet (memSet (memSet (memEmpty V [] 2 ttl) kA vA none t) kB vB none t) kC vC none t).store.map
        Prod.fst = [kB, kC]) ∧
      (memGet (memSet (memSet (memSet (memEmpty V [] 2 ttl) kA vA none t) kB vB none t) kC vC none t)
          kB t').1 = some vB ∧
      (memGet (memSet (memSet (memSet (memEmpty V [] 2 ttl) kA vA none t) kB vB none t) kC vC none t)
          kC t').1 = some vC ∧
      (memGet (memSet (memSet (memSet (memEmpty V [] 2 ttl) kA vA none t) kB vB none t) kC vC none t)
          kA t').1 = none := by
  have hnot : ¬((ttl : ℚ) < t' - t) := not_lt.mpr hfresh
  have e3 : (memSet (memSet (memSet (memEmpty V [] 2 ttl) kA vA none t) kB vB none t) kC vC none t).store
      = [(kB, (t, ttl, vB)), (kC, (t, ttl, vC))] := by
    simp [memEmpty, memSet, pkOf, updateAssoc, hAB, hBC]
  have epfx : (memSet (memSet (memSet (memEmpty V [] 2 ttl) kA vA none t) kB vB none t) kC vC none t).keyPfx
      = [] := rfl
  have hCB : (kC == kB) = false := beq_eq_false_iff_ne.mpr (Ne.symm hBC)
  have hABf : (kA == kB) = false := beq_eq_false_iff_ne.mpr hAB
  have hACf : (kA == kC) = false := beq_eq_false_iff_ne.mpr hAC
  refine ⟨by rw [e3]; rfl, ?_, ?_, ?_⟩ <;>
    simp [memGet, pkOf, e3, epfx, List.lookup, hCB, hABf, hACf, hnot]

/-- Witness for C8 at keys `a`, `b`, `c`, values 1, 2, 3, TTL 300, all
operations at time 0. -/
theorem claim8_fifo_eviction_witness :
    ("a".data ≠ "b".data ∧ "a".data ≠ "c".data ∧ "b".data ≠ "c".data ∧
        ((0 : ℚ) - 0 ≤ ((300 : ℕ) : ℚ))) ∧
      (((memSet (memSet (memSet (memEmpty ℕ [] 2 300) "a".data 1 none 0) "b".data 2 none 0)
            "c".data 3 none 0).store.map Prod.fst = ["b".data, "c".data]) ∧
        (memGet (memSet (memSet (memSet (memEmpty ℕ [] 2 300) "a".data 1 none 0) "b".data 2 none 0)
            "c".data 3 none 0) "b".data 0).1 = some 2 ∧
        (memGet (memSet (memSet (memSet (memEmpty ℕ [] 2 300) "a".data 1 none 0) "b".data 2 none 0)
            "c".data 3 none 0) "c".data 0).1 = some 3 ∧
        (memGet (memSet (memSet (memSet (memEmpty ℕ [] 2 300) "a".data 1 none 0) "b".data 2 none 0)
            "c".data 3 none 0) "a".data 0).1 = none) :=
  ⟨⟨by decide, by decide, by decide, by norm_num⟩,
    claim8_fifo_eviction ℕ "a".data "b".data "c".data 1 2 3 300 0 0
      (by decide) (by decide) (by decide) (by norm_num)⟩

/-- C9 (amended): the Gemini strategy divides each provider vector by its
L2 norm exactly when the output dimensionality is below 3072 — the result
has unit norm whenever the provider vector is nonzero — and returns it
unchanged at 3072 or above; the SentenceTransformer strategy applies no
normalization of its own, returning the external model's vectors unchanged.
(`nrm` stands for `np.linalg.norm(raw)`: any value with `nrm² = sumSq raw`.) -/
theorem claim9_normalization :
    (∀ (raw : List ℚ) (nrm : ℚ) (dim : ℕ), dim < 3072 → nrm * nrm = sumSq raw →
        nrm ≠ 0 → sumSq (geminiPostprocessEmbedding raw nrm dim) = 1)
    ∧ (∀ (raw : List ℚ) (nrm : ℚ) (dim : ℕ), 3072 ≤ dim →
        geminiPostprocessEmbedding raw nrm dim = raw)
    ∧ (∀ (modelEncode : List String → List (List ℚ)) (texts : List String),
        sentenceTransformerPrepareEmbeddings modelEncode texts = modelEncode texts) := by
  refine ⟨?_, ?_, ?_⟩
  · intro raw nrm dim hdim hnrm h0
    unfold geminiPostprocessEmbedding
    rw [if_pos hdim, sumSq_map_div, ← hnrm, div_self (mul_ne_zero h0 h0)]
  · intro raw nrm dim hdim
    unfold geminiPostprocessEmbedding
    rw [if_neg (by omega)]
  · intro modelEncode texts
    rfl

/-- Witness for C9 at the provider vector (3, 4) with norm 5 and output
dimensionality 768. -/
theorem claim9_normalization_witness :
    ((768 : ℕ) < 3072 ∧ (5 : ℚ) * 5 = sumSq [3, 4] ∧ (5 : ℚ) ≠ 0) ∧
      sumSq (geminiPostprocessEmbedding [3, 4] 5 768) = 1 :=
  ⟨⟨by norm_num, by norm_num [sumSq], by norm_num⟩,
    claim9_normalization.1 [3, 4] 5 768 (by norm_num) (by norm_num [sumSq]) (by norm_num)⟩

/-- C9 counterexample: the SentenceTransformer strategy returns the model's
vector (3, 4) unchanged even though its dimension (2) is below 3072 and its
squared norm is 25, not 1 — the strategy itself guarantees no
normalization. -/
theorem claim9_counterexample :
    sentenceTransformerPrepareEmbeddings (fun _ => [[3, 4]]) ["text"] = [[3, 4]] ∧
      sumSq [3, 4] ≠ 1 :=
  ⟨rfl, by norm_num [sumSq]⟩

/-- C10: (1) starting from a fresh `MemoryCache` of any capacity `c ≥ 1`,
every sequence of `get`/`set` operations keeps `size() ≤ c`; (2) a `set`
issued when the store holds exactly `c` entries first evicts the
earliest-inserted key — also when the key being written is already present
(and distinct from the oldest), in which case the oldest, unrelated entry is
evicted by the overwrite while the written key remains present. -/
theorem claim10_capacity_invariant :
    (∀ (V : Type) (pfx : List Char) (cap ttl : ℕ) (ops : List (CacheOp V)),
        1 ≤ cap → memSize (runOps (memEmpty V pfx cap ttl) ops) ≤ cap)
    ∧ (∀ (V : Type) (c : MemoryCache V) (k : List Char) (v : V) (ts : Option ℕ)
        (now : ℚ) (k₀ : List Char) (e₀ : ℚ × ℕ × V),
        memSize c = c.capacity → 1 ≤ c.capacity →
        c.store.head? = some (k₀, e₀) →
        (c.store.map Prod.fst).Nodup →
        pkOf c k ≠ k₀ →
        k₀ ∉ ((memSet c k v ts now).store.map Prod.fst) ∧
          pkOf c k ∈ ((memSet c k v ts now).store.map Prod.fst)) := by
  constructor
  · intro V pfx cap ttl ops hcap
    exact runOps_size_le ops _ (by simpa [memEmpty] using hcap) (by simp [memEmpty, memSize])
  · intro V c k v ts now k₀ e₀ hsize hcap hhead hnodup hne
    rcases hc : c.store with _ | ⟨p, tail⟩
    · rw [hc] at hhead
      simp at hhead
    · rw [hc] at hhead
      simp only [List.head?_cons, Option.some.injEq] at hhead
      subst hhead
      have hfull : c.capacity ≤ c.store.length := by
        unfold memSize at hsize
        omega
      have hstore : (memSet c k v ts now).store =
          updateAssoc (c.store.drop 1) (pkOf c k)
            ((now, (match ts with
                    | some tt => if tt = 0 then c.default_ttl else tt
                    | none => c.default_ttl), v)) := by
        unfold memSet
        simp [hfull]
      rw [hstore, hc]
      simp only [List.drop_succ_cons, List.drop_zero]
      rw [hc] at hnodup
      simp only [List.map_cons, List.nodup_cons] at hnodup
      have hk₀ : k₀ ∉ tail.map Prod.fst := hnodup.1
      constructor
      · rw [mem_keys_updateAssoc]
        rintro (hmem | hkeq)
        · exact hk₀ hmem
        · exact hne hkeq.symm
      · rw [mem_keys_updateAssoc]
        exact Or.inr rfl

/-- Witness for C10: capacity-1 invariant over two sets, and an at-capacity
overwrite of key `b` in a capacity-2 store `[a, b]` that evicts `a` and
keeps `b`. -/
theorem claim10_capacity_invariant_witness :
    (1 ≤ 1 ∧
        memSize (runOps (memEmpty ℕ [] 1 1)
            [CacheOp.set "x".data 1 none 0, CacheOp.set "y".data 2 none 0]) ≤ 1) ∧
      ("a".data ∉ ((memSet
            ⟨[], 2, 300, [("a".data, ((0 : ℚ), 300, 1)), ("b".data, ((0 : ℚ), 300, 2))]⟩
            "b".data 9 none 1).store.map Prod.fst) ∧
        pkOf (⟨[], 2, 300, [("a".data, ((0 : ℚ), 300, 1)), ("b".data, ((0 : ℚ), 300, 2))]⟩ :
              MemoryCache ℕ)
            "b".data ∈
          ((memSet
            ⟨[], 2, 300, [("a".data, ((0 : ℚ), 300, 1)), ("b".data, ((0 : ℚ), 300, 2))]⟩
            "b".data 9 none 1).store.map Prod.fst)) :=
  ⟨⟨by decide,
      claim10_capacity_invariant.1 ℕ [] 1 1
        [CacheOp.set "x".data 1 none 0, CacheOp.set "y".data 2 none 0] (by decide)⟩,
    claim10_capacity_invariant.2 ℕ
      ⟨[], 2, 300, [("a".data, ((0 : ℚ), 300, 1)), ("b".data, ((0 : ℚ), 300, 2))]⟩
      "b".data 9 none 1 "a".data ((0 : ℚ), 300, 1)
      rfl (by decide) rfl (by decide) (by decide)⟩

end HrBot
